import Mathlib

/-!
Verification of the ManaHg repository-state orchestrator (src/main.rs,
src/repo.rs) against its natural-language specification.

The Rust code is shallowly embedded: `PathBuf` and all text fields become
`String`; the external `hg` child process is modelled by a `world` function
from the argument vector to the raw process output (`ProcessOutput`), and
`run_hg` is translated over that raw output. Fallible Rust functions
returning `anyhow::Result` become `Except String`. Collection mutation in
the event loop becomes pure list transformations. Rust's stable `sort_by`
is modelled by `List.insertionSort` (a stable sort; the output of a stable
sort is uniquely determined by the comparator, so any stable sort is an
extensionally exact model).
-/

namespace ManaHg

/-- Repository record, from `struct Repository` in src/repo.rs (lines 7-15).
`PathBuf` is modelled as `String`. -/
structure Repository where
  path : String
  current_branch : String
  revision : String
  modified : Bool
  commit_type : String
  last_status : String
deriving DecidableEq, Repr

/-- Fresh record, from `Repository::new` (repo.rs lines 19-28): all state
fields empty / false. -/
def Repository.new (p : String) : Repository :=
  { path := p
    current_branch := ""
    revision := ""
    modified := false
    commit_type := ""
    last_status := "" }

/-- Raw outcome of one external `hg` child process: exit status
(`success` = exit code 0), captured stdout and stderr. -/
structure ProcessOutput where
  success : Bool
  stdout : String
  stderr : String

deriving instance DecidableEq for Except

/-- Model of Rust `str::trim` on a character list: drop Unicode whitespace
from both ends. -/
def trimChars (l : List Char) : List Char :=
  ((l.dropWhile Char.isWhitespace).reverse.dropWhile Char.isWhitespace).reverse

/-- Model of Rust `str::trim`. (Defined via `trimChars` so that it reduces
in the kernel, unlike `String.trim`.) -/
def rtrim (s : String) : String :=
  String.mk (trimChars s.data)

/-- The external world: for each `hg` argument vector, the raw process
output that invocation would produce. -/
def World : Type :=
  List String → ProcessOutput

/-- `Repository::run_hg` (repo.rs lines 45-67), given the raw output of the
spawned process: on non-zero exit fail with `hg command failed: ` plus the
trimmed stderr, otherwise return the trimmed stdout. -/
def run_hg (out : ProcessOutput) : Except String String :=
  if !out.success then
    Except.error ("hg command failed: " ++ rtrim out.stderr)
  else
    Except.ok (rtrim out.stdout)

/-- `Repository::get_current_branch` (repo.rs lines 69-71): `hg branch`. -/
def get_current_branch (w : World) : Except String String :=
  run_hg (w ["branch"])

/-- Capitalisation of the first character, from `get_commit_type`
(repo.rs lines 84-89). -/
def capitalizeFirst (s : String) : String :=
  match s.data with
  | [] => ""
  | c :: rest => String.mk (c.toUpper :: rest)

/-- `Repository::get_commit_type` (repo.rs lines 82-90): query the phase of
the working revision and capitalise the first letter. -/
def get_commit_type (w : World) : Except String String := do
  let output ← run_hg (w ["log", "-r", ".", "--template", "{phase}"])
  pure (capitalizeFirst output)

/-- `Repository::get_repo_status` (repo.rs lines 107-118): `hg id -n` for
the revision (propagating its failure), then `hg status -q` for pending
changes, a failure of which is treated as empty output (no changes). -/
def get_repo_status (w : World) : Except String (String × Bool) := do
  let id_output ← run_hg (w ["id", "-n"])
  let status_output :=
    match run_hg (w ["status", "-q"]) with
    | Except.ok s => s
    | Except.error _ => ""
  pure (id_output, !status_output.isEmpty)

/-- `Repository::refresh` (repo.rs lines 30-43): re-derive the branch,
revision/modified pair and phase, each degrading independently to its
sentinel on failure; `path` and `last_status` are untouched. -/
def refresh (w : World) (r : Repository) : Repository :=
  { r with
    current_branch :=
      match get_current_branch w with
      | Except.ok b => b
      | Except.error _ => "ERROR"
    revision :=
      match get_repo_status w with
      | Except.ok (rev, _) => rev
      | Except.error _ => "?"
    modified :=
      match get_repo_status w with
      | Except.ok (_, modded) => modded
      | Except.error _ => false
    commit_type :=
      match get_commit_type w with
      | Except.ok c => c
      | Except.error _ => "Unknown" }

/-- `Repository::pull_current_branch` (repo.rs lines 96-101); the
`current_branch.starts_with("ERROR")` guard is modelled on the character
list. The second component records the argument vectors of the external
invocations actually performed (the effect log): the guard path performs
none, the pull path performs exactly one. -/
def pull_current_branch (w : World) (r : Repository) :
    Except String String × List (List String) :=
  if "ERROR".data.isPrefixOf r.current_branch.data then
    (Except.error "Cannot pull: current branch unknown", [])
  else
    (run_hg (w ["pull", "-b", r.current_branch]), [["pull", "-b", r.current_branch]])

/-- Terminal per-record status written by the bulk-operation worker
(main.rs lines 808-817): `"Success"` on success, `"Error: {message}"` on
failure. -/
def workerStatus (res : Except String String) : String :=
  match res with
  | Except.ok _ => "Success"
  | Except.error e => "Error: " ++ e

/-- Rust's `Ord` on paths and strings: byte-lexicographic comparison,
modelled as lexicographic order on the character list (the same order,
since UTF-8 byte order agrees with codepoint order). -/
def textLe (a b : String) : Prop :=
  a.data ≤ b.data

instance textLeDec : DecidableRel textLe := fun a b =>
  inferInstanceAs (Decidable (a.data ≤ b.data))

/-- Path-ascending comparison used by the default sort (main.rs line 501
and line 1069: `a.path.cmp(&b.path)`). -/
def pathRel (a b : Repository) : Prop :=
  textLe a.path b.path

instance pathRelDec : DecidableRel pathRel := fun a b =>
  inferInstanceAs (Decidable (textLe a.path b.path))

/-- The `Message::RepoUpdated` merge (main.rs lines 508-519): the updated
record replaces every field of the stored one, except that an empty
incoming `last_status` keeps the previously stored status. -/
def mergeRecord (old upd : Repository) : Repository :=
  if upd.last_status = "" then { upd with last_status := old.last_status } else upd

/-- The `Message::RepoUpdated` handler (main.rs lines 508-519):
`iter_mut().find` locates the first record with the incoming path and
replaces it under the sticky-status rule; if no record matches, the
collection is left unchanged. -/
def applyUpdate (repos : List Repository) (upd : Repository) : List Repository :=
  match repos with
  | [] => []
  | r :: rest =>
    if r.path = upd.path then mergeRecord r upd :: rest
    else r :: applyUpdate rest upd

/-- The insertion loop of the `Message::ScanComplete` handler (main.rs
lines 496-500): push each scanned record whose path is not already present
in the (growing) collection. -/
def insertLoop (repos : List Repository) (incoming : List Repository) : List Repository :=
  match incoming with
  | [] => repos
  | nr :: rest =>
    if repos.any (fun r => r.path = nr.path) then insertLoop repos rest
    else insertLoop (repos ++ [nr]) rest

/-- The `Message::ScanComplete` handler (main.rs lines 494-507): insert the
unseen records, then stable-sort the collection by path ascending. -/
def insertDiscovered (repos : List Repository) (incoming : List Repository) :
    List Repository :=
  (insertLoop repos incoming).insertionSort pathRel

/-- A sequence of `Message::ScanComplete` batches applied in order. -/
def applyBatches (repos : List Repository) (batches : List (List Repository)) :
    List Repository :=
  batches.foldl insertDiscovered repos

/-- Sort direction, from `enum SortOrder` (main.rs lines 122-127);
`unordered` is the source's `None` default. -/
inductive SortOrder where
  | ascending
  | descending
  | unordered
deriving DecidableEq, Repr

/-- Sort state, from `struct SortState` (main.rs lines 129-132). -/
structure SortState where
  column : Nat
  order : SortOrder

/-- Column comparison of `sort_repos` (main.rs lines 1073-1082): columns
0..5 compare path, branch, revision, modified, phase and status with their
natural (`Ord::cmp`) orders — text for the strings, `false < true` for the
boolean — and any other column index compares everything equal. -/
def colRel (col : Nat) (a b : Repository) : Prop :=
  match col with
  | 0 => textLe a.path b.path
  | 1 => textLe a.current_branch b.current_branch
  | 2 => textLe a.revision b.revision
  | 3 => a.modified ≤ b.modified
  | 4 => textLe a.commit_type b.commit_type
  | 5 => textLe a.last_status b.last_status
  | _ + 6 => True

instance colRelDec (col : Nat) : DecidableRel (colRel col) := fun a b =>
  match col with
  | 0 => inferInstanceAs (Decidable (textLe a.path b.path))
  | 1 => inferInstanceAs (Decidable (textLe a.current_branch b.current_branch))
  | 2 => inferInstanceAs (Decidable (textLe a.revision b.revision))
  | 3 => inferInstanceAs (Decidable (a.modified ≤ b.modified))
  | 4 => inferInstanceAs (Decidable (textLe a.commit_type b.commit_type))
  | 5 => inferInstanceAs (Decidable (textLe a.last_status b.last_status))
  | _ + 6 => inferInstanceAs (Decidable True)

/-- `fn sort_repos` (main.rs lines 1066-1090): order `None` stable-sorts by
path ascending ignoring the column; otherwise stable-sort by the selected
column, with the comparison reversed for descending order. Rust's stable
`sort_by` is modelled by `insertionSort` (stable-sort output is unique). -/
def sort_repos (repos : List Repository) (state : SortState) : List Repository :=
  match state.order with
  | SortOrder.unordered => repos.insertionSort pathRel
  | SortOrder.ascending => repos.insertionSort (colRel state.column)
  | SortOrder.descending =>
    @List.insertionSort _ (fun a b => colRel state.column b a)
      (fun a b => colRelDec state.column b a) repos

/-- JSON value model for the persistence codec. -/
inductive Json where
  | str : String → Json
  | num : Nat → Json
  | boolean : Bool → Json
  | arr : List Json → Json
  | obj : List (String × Json) → Json

/-- `struct AppConfig` (main.rs lines 37-43): tracked paths, theme index,
and the `show_full_path` display preference whose serde default is `true`
(lines 33-35 and 41). `PathBuf` and `usize` become `String` and `Nat`. -/
structure AppConfig where
  repositories : List String
  theme_idx : Nat
  show_full_path : Bool
deriving DecidableEq, Repr

/-- `impl Default for AppConfig` (main.rs lines 45-53). -/
def AppConfig.defaultConfig : AppConfig :=
  { repositories := [], theme_idx := 0, show_full_path := true }

/-- Field lookup in a serde JSON object: first binding with the given
name. -/
def getField (fields : List (String × Json)) (name : String) : Option Json :=
  match fields with
  | [] => none
  | (k, v) :: rest => if k = name then some v else getField rest name

/-- Decode a list of JSON strings (serde `Vec<PathBuf>` from a JSON
array of strings). -/
def decodeStrAll (items : List Json) : Option (List String) :=
  match items with
  | [] => some []
  | Json.str s :: rest => (decodeStrAll rest).map (fun l => s :: l)
  | _ => none

/-- Decode serde `Vec<PathBuf>`: a JSON array whose elements are all
strings. -/
def decodePaths (j : Json) : Option (List String) :=
  match j with
  | Json.arr items => decodeStrAll items
  | _ => none

/-- Decode a `usize` field. -/
def decodeNat (j : Json) : Option Nat :=
  match j with
  | Json.num n => some n
  | _ => none

/-- Decode a `bool` field. -/
def decodeBool (j : Json) : Option Bool :=
  match j with
  | Json.boolean b => some b
  | _ => none

/-- Serde deserialisation of `AppConfig` (derive on main.rs lines 37-43):
an object with required `repositories` and `theme_idx` fields and an
optional `show_full_path` field defaulting to `true`. -/
def decodeAppConfig (j : Json) : Option AppConfig :=
  match j with
  | Json.obj fields => do
    let rj ← getField fields "repositories"
    let repos ← decodePaths rj
    let tj ← getField fields "theme_idx"
    let theme ← decodeNat tj
    let sfp ←
      match getField fields "show_full_path" with
      | some bj => decodeBool bj
      | none => some true
    pure { repositories := repos, theme_idx := theme, show_full_path := sfp }
  | _ => none

/-- Serde serialisation of `AppConfig` (derive on main.rs lines 37-43): all
three fields are written. -/
def encodeAppConfig (c : AppConfig) : Json :=
  Json.obj
    [("repositories", Json.arr (c.repositories.map Json.str)),
     ("theme_idx", Json.num c.theme_idx),
     ("show_full_path", Json.boolean c.show_full_path)]

/-- `fn load_config` (main.rs lines 56-75) on the parsed document (`none`
models an unreadable file): try `AppConfig` first, fall back to a legacy
bare path list with defaulted preferences, else the default config. -/
def load_config (doc : Option Json) : AppConfig :=
  match doc with
  | none => AppConfig.defaultConfig
  | some j =>
    match decodeAppConfig j with
    | some cfg => cfg
    | none =>
      match decodePaths j with
      | some paths =>
        { repositories := paths, theme_idx := 0, show_full_path := true }
      | none => AppConfig.defaultConfig

/-- The outbound messages relevant to a bulk-operation batch
(`enum Message`, main.rs lines 99-120). -/
inductive Msg where
  | repoUpdated : Repository → Msg
  | setGlobalStatus : String → Msg
deriving DecidableEq

/-- Message trace emitted by one bulk-operation batch (main.rs lines
788-820): `par_iter().for_each` sends one `RepoUpdated` terminal result per
worker, in whatever completion order, and only after that loop has joined
does the spawned thread send the single `SetGlobalStatus "Ready"` signal.
`completed` is the worker completion order and `outcome` the terminal
record each worker produced. -/
def batchTrace (outcome : Repository → Repository) (completed : List Repository) :
    List Msg :=
  completed.map (fun r => Msg.repoUpdated (outcome r)) ++
    [Msg.setGlobalStatus "Ready"]

/-! ### Helper lemmas -/

theorem map_merge_eq_self (l : List Repository) (upd : Repository)
    (h : ∀ x ∈ l, x.path ≠ upd.path) :
    l.map (fun r => if r.path = upd.path then mergeRecord r upd else r) = l := by
  induction l with
  | nil => rfl
  | cons x xs ih =>
    simp only [List.map_cons, if_neg (h x (List.mem_cons_self x xs))]
    rw [ih (fun y hy => h y (List.mem_cons_of_mem _ hy))]

theorem applyUpdate_eq_map :
    ∀ (repos : List Repository) (upd : Repository),
      (repos.map Repository.path).Nodup →
      applyUpdate repos upd =
        repos.map (fun r => if r.path = upd.path then mergeRecord r upd else r)
  | [], _, _ => rfl
  | r :: rest, upd, hnd => by
    simp only [List.map_cons, List.nodup_cons] at hnd
    obtain ⟨hnotin, hnd'⟩ := hnd
    by_cases h : r.path = upd.path
    · simp only [applyUpdate, if_pos h, List.map_cons]
      rw [map_merge_eq_self rest upd]
      intro x hx hxp
      exact hnotin (h ▸ hxp ▸ List.mem_map_of_mem Repository.path hx)
    · simp only [applyUpdate, if_neg h, List.map_cons]
      rw [applyUpdate_eq_map rest upd hnd']

theorem decodeStrAll_map_str (l : List String) :
    decodeStrAll (l.map Json.str) = some l := by
  induction l with
  | nil => rfl
  | cons s rest ih => simp [decodeStrAll, ih]

/-- World whose `hg id -n` succeeds with `"42"` while every other
invocation fails. -/
def idOnlyWorld : World := fun args =>
  if args = ["id", "-n"] then { success := true, stdout := "42", stderr := "" }
  else { success := false, stdout := "", stderr := "boom" }

/-- World in which every invocation fails. -/
def failWorld : World := fun _ =>
  { success := false, stdout := "", stderr := "boom" }

theorem pathRel_total (a b : Repository) : pathRel a b ∨ pathRel b a :=
  le_total a.path.data b.path.data

theorem pathRel_trans (a b c : Repository) :
    pathRel a b → pathRel b c → pathRel a c :=
  fun h1 h2 => le_trans h1 h2

instance : IsTotal Repository pathRel := ⟨pathRel_total⟩

instance : IsTrans Repository pathRel := ⟨pathRel_trans⟩

theorem mem_insertLoop_of_mem :
    ∀ (incoming repos : List Repository) (r : Repository),
      r ∈ repos → r ∈ insertLoop repos incoming
  | [], _, _, h => h
  | nr :: rest, repos, r, h => by
    unfold insertLoop
    by_cases hdup : repos.any (fun x => x.path = nr.path)
    · simp only [hdup, if_true]
      exact mem_insertLoop_of_mem rest repos r h
    · simp only [hdup, if_false]
      exact mem_insertLoop_of_mem rest (repos ++ [nr]) r (List.mem_append_left _ h)

theorem mem_of_mem_insertLoop :
    ∀ (incoming repos : List Repository) (r : Repository),
      r ∈ insertLoop repos incoming → r ∈ repos ∨ r ∈ incoming
  | [], _, _, h => Or.inl h
  | nr :: rest, repos, r, h => by
    unfold insertLoop at h
    by_cases hdup : repos.any (fun x => x.path = nr.path)
    · simp only [hdup, if_true] at h
      rcases mem_of_mem_insertLoop rest repos r h with h' | h'
      · exact Or.inl h'
      · exact Or.inr (List.mem_cons_of_mem _ h')
    · simp only [hdup, if_false] at h
      rcases mem_of_mem_insertLoop rest (repos ++ [nr]) r h with h' | h'
      · rcases List.mem_append.mp h' with h'' | h''
        · exact Or.inl h''
        · exact Or.inr (List.mem_singleton.mp h'' ▸ List.mem_cons_self nr rest)
      · exact Or.inr (List.mem_cons_of_mem _ h')

theorem nodup_insertLoop :
    ∀ (incoming repos : List Repository),
      (repos.map Repository.path).Nodup →
      ((insertLoop repos incoming).map Repository.path).Nodup
  | [], _, h => h
  | nr :: rest, repos, h => by
    unfold insertLoop
    by_cases hdup : repos.any (fun x => x.path = nr.path)
    · simp only [hdup, if_true]
      exact nodup_insertLoop rest repos h
    · simp only [hdup, if_false]
      refine nodup_insertLoop rest (repos ++ [nr]) ?_
      rw [List.map_append, List.map_singleton, List.nodup_append]
      refine ⟨h, List.nodup_singleton _, ?_⟩
      intro p hp hp1
      rw [List.mem_singleton] at hp1
      rcases List.mem_map.mp hp with ⟨x, hx, hxp⟩
      rw [List.any_eq_true] at hdup
      push_neg at hdup
      exact absurd (hxp.trans hp1) (by simpa using hdup x hx)

theorem insertDiscovered_perm (repos incoming : List Repository) :
    (insertDiscovered repos incoming).Perm (insertLoop repos incoming) :=
  List.perm_insertionSort pathRel _

theorem nodup_insertDiscovered (repos incoming : List Repository)
    (h : (repos.map Repository.path).Nodup) :
    ((insertDiscovered repos incoming).map Repository.path).Nodup :=
  (((insertDiscovered_perm repos incoming).map Repository.path).nodup_iff).mpr
    (nodup_insertLoop incoming repos h)

theorem mem_insertDiscovered_of_mem {repos : List Repository}
    (incoming : List Repository) {r : Repository} (h : r ∈ repos) :
    r ∈ insertDiscovered repos incoming :=
  ((insertDiscovered_perm repos incoming).mem_iff).mpr
    (mem_insertLoop_of_mem incoming repos r h)

theorem mem_of_mem_insertDiscovered {repos incoming : List Repository}
    {r : Repository} (h : r ∈ insertDiscovered repos incoming) :
    r ∈ repos ∨ r ∈ incoming :=
  mem_of_mem_insertLoop incoming repos r
    (((insertDiscovered_perm repos incoming).mem_iff).mp h)

theorem sorted_insertDiscovered (repos incoming : List Repository) :
    List.Sorted pathRel (insertDiscovered repos incoming) :=
  List.sorted_insertionSort pathRel _

theorem colRel_total (col : Nat) (a b : Repository) :
    colRel col a b ∨ colRel col b a := by
  rcases col with _ | _ | _ | _ | _ | _ | n <;>
    first
      | exact le_total (α := List Char) _ _
      | exact le_total (α := Bool) _ _
      | exact Or.inl trivial

theorem colRel_trans (col : Nat) (a b c : Repository) :
    colRel col a b → colRel col b c → colRel col a c := by
  rcases col with _ | _ | _ | _ | _ | _ | n <;>
    first
      | exact fun h1 h2 => le_trans (α := List Char) h1 h2
      | exact fun h1 h2 => le_trans (α := Bool) h1 h2
      | exact fun _ _ => trivial

/-! ### Claims -/

/-- C1: the `RepoUpdated` merge replaces all fields of the record matching
the incoming path, except that an empty incoming `last_status` preserves
the stored status while a non-empty one overwrites it; with pairwise
distinct paths the replacement touches exactly the matching position. -/
theorem C1_applyUpdate_sticky_status (repos : List Repository) (upd : Repository)
    (hnd : (repos.map Repository.path).Nodup) :
    applyUpdate repos upd =
      repos.map (fun r => if r.path = upd.path then mergeRecord r upd else r) ∧
    ∀ r : Repository,
      (mergeRecord r upd).path = upd.path ∧
      (mergeRecord r upd).current_branch = upd.current_branch ∧
      (mergeRecord r upd).revision = upd.revision ∧
      (mergeRecord r upd).modified = upd.modified ∧
      (mergeRecord r upd).commit_type = upd.commit_type ∧
      (upd.last_status = "" → (mergeRecord r upd).last_status = r.last_status) ∧
      (upd.last_status ≠ "" → (mergeRecord r upd).last_status = upd.last_status) := by
  refine ⟨applyUpdate_eq_map repos upd hnd, fun r => ?_⟩
  unfold mergeRecord
  by_cases h : upd.last_status = "" <;>
    simp [h]

/-- Closed instance of `C1_applyUpdate_sticky_status`: a two-record
collection, an update matching the second path with empty status keeps the
stored status text. -/
theorem C1_witness :
    applyUpdate
        [{ Repository.new "/a" with last_status := "Ready" },
         { Repository.new "/b" with last_status := "Busy" }]
        { Repository.new "/b" with current_branch := "default" } =
      [{ Repository.new "/a" with last_status := "Ready" },
       { Repository.new "/b" with current_branch := "default", last_status := "Busy" }] := by
  have h := C1_applyUpdate_sticky_status
    [{ Repository.new "/a" with last_status := "Ready" },
     { Repository.new "/b" with last_status := "Busy" }]
    { Repository.new "/b" with current_branch := "default" }
    (by decide)
  rw [h.1]
  decide

/-- C6: a `RepoUpdated` result whose path matches no record leaves the
collection unchanged (stale results for removed records are dropped
silently). -/
theorem C6_applyUpdate_absent_path_noop (repos : List Repository)
    (upd : Repository) (habs : ∀ r ∈ repos, r.path ≠ upd.path) :
    applyUpdate repos upd = repos := by
  induction repos with
  | nil => rfl
  | cons r rest ih =>
    simp only [applyUpdate, if_neg (habs r (List.mem_cons_self r rest))]
    rw [ih (fun y hy => habs y (List.mem_cons_of_mem _ hy))]

/-- Closed instance of `C6_applyUpdate_absent_path_noop`: a stale refresh
result for the removed record `/a` leaves the remaining collection
unchanged. -/
theorem C6_witness :
    applyUpdate [{ Repository.new "/b" with last_status := "Ready" }]
        { Repository.new "/a" with last_status := "Ready" } =
      [{ Repository.new "/b" with last_status := "Ready" }] :=
  C6_applyUpdate_absent_path_noop _ _ (by decide)

/-- C3: `refresh` is a total function; each of the three sub-queries
determines exactly one field group, independently of the others, degrading
to its own sentinel on failure (`"ERROR"` for the branch, `"?"` with
`modified = false` for the revision pair, `"Unknown"` for the phase), and
`path` and `last_status` are untouched. -/
theorem C3_refresh_degrades_independently (w : World) (r : Repository) :
    (refresh w r).path = r.path ∧
    (refresh w r).last_status = r.last_status ∧
    (refresh w r).current_branch =
      (match get_current_branch w with
       | Except.ok b => b
       | Except.error _ => "ERROR") ∧
    ((refresh w r).revision, (refresh w r).modified) =
      (match get_repo_status w with
       | Except.ok p => p
       | Except.error _ => ("?", false)) ∧
    (refresh w r).commit_type =
      (match get_commit_type w with
       | Except.ok c => c
       | Except.error _ => "Unknown") := by
  refine ⟨rfl, rfl, ?_, ?_, ?_⟩
  · rcases hb : get_current_branch w with e | b <;> simp [refresh, hb]
  · rcases hs : get_repo_status w with e | p <;> simp [refresh, hs]
  · rcases hc : get_commit_type w with e | c <;> simp [refresh, hc]

/-- C4 as stated is refuted: a record that was never successfully
refreshed has the empty `current_branch`, which does not start with
`"ERROR"`, so `pull_current_branch` does not fail fast — it performs one
external invocation `hg pull -b ""` and here even succeeds. -/
theorem C4_counterexample :
    (pull_current_branch (fun _ => { success := true, stdout := "", stderr := "" })
        (Repository.new "/r")).2 = [["pull", "-b", ""]] ∧
    (pull_current_branch (fun _ => { success := true, stdout := "", stderr := "" })
        (Repository.new "/r")).1 = Except.ok "" := by
  decide

/-- C4 amended: only a `current_branch` starting with `"ERROR"` makes
`pull_current_branch` fail fast with the local precondition error and zero
external invocations; any other branch value — including the empty
never-refreshed one — issues exactly one external pull scoped to that
branch. -/
theorem C4_pull_current_guard (w : World) (r : Repository) :
    ("ERROR".data.isPrefixOf r.current_branch.data = true →
      pull_current_branch w r =
        (Except.error "Cannot pull: current branch unknown", [])) ∧
    ("ERROR".data.isPrefixOf r.current_branch.data = false →
      (pull_current_branch w r).1 = run_hg (w ["pull", "-b", r.current_branch]) ∧
      (pull_current_branch w r).2 = [["pull", "-b", r.current_branch]]) := by
  constructor <;> intro h <;> simp [pull_current_branch, h]

/-- Closed instance of `C4_pull_current_guard`: the error-sentinel branch
performs no invocation, the branch `"default"` performs exactly one. -/
theorem C4_witness :
    pull_current_branch (fun _ => { success := true, stdout := "", stderr := "" })
        { Repository.new "/r" with current_branch := "ERROR" } =
      (Except.error "Cannot pull: current branch unknown", []) ∧
    (pull_current_branch (fun _ => { success := true, stdout := "", stderr := "" })
        { Repository.new "/r" with current_branch := "default" }).2 =
      [["pull", "-b", "default"]] :=
  ⟨(C4_pull_current_guard _ _).1 (by decide),
   ((C4_pull_current_guard _ _).2 (by decide)).2⟩

/-- C5 as stated is refuted: on non-zero exit with stderr
`"abort: no repository"` the worker writes
`"Error: hg command failed: abort: no repository"` — `run_hg` prepends
`"hg command failed: "` to the trimmed stderr — not
`"Error: abort: no repository"`. -/
theorem C5_counterexample :
    workerStatus
        (run_hg { success := false, stdout := "", stderr := "abort: no repository" }) =
      "Error: hg command failed: abort: no repository" ∧
    "Error: hg command failed: abort: no repository" ≠
      "Error: abort: no repository" := by
  decide

/-- C5 amended: a failing external command with stderr `S` yields the
per-record status `"Error: hg command failed: "` followed by the trimmed
`S`; a succeeding command yields the fixed label `"Success"`. -/
theorem C5_worker_status (out : ProcessOutput) :
    (out.success = false →
      workerStatus (run_hg out) =
        "Error: hg command failed: " ++ rtrim out.stderr) ∧
    (out.success = true → workerStatus (run_hg out) = "Success") := by
  constructor <;> intro h <;> simp only [workerStatus, run_hg, h,
    Bool.not_false, Bool.not_true, if_true, if_false, Bool.false_eq_true,
    ite_false, ite_true]
  rw [← String.append_assoc]
  rfl

/-- Closed instance of `C5_worker_status` at a failing and at a succeeding
process output. -/
theorem C5_witness :
    workerStatus (run_hg { success := false, stdout := "", stderr := " boom " }) =
      "Error: hg command failed: " ++ rtrim " boom " ∧
    workerStatus (run_hg { success := true, stdout := "2 files updated", stderr := "" }) =
      "Success" :=
  ⟨(C5_worker_status _).1 rfl, (C5_worker_status _).2 rfl⟩

/-- C2: starting from a collection with pairwise distinct paths, any
sequence of `ScanComplete` batches — batches may repeat paths internally —
keeps the paths pairwise distinct, preserves every original record,
adds only records coming from the batches, and after at least one batch
the collection is sorted by path ascending. -/
theorem C2_insertDiscovered_invariants (repos : List Repository)
    (batches : List (List Repository))
    (hnd : (repos.map Repository.path).Nodup) :
    ((applyBatches repos batches).map Repository.path).Nodup ∧
    (∀ r ∈ repos, r ∈ applyBatches repos batches) ∧
    (∀ r ∈ applyBatches repos batches, r ∈ repos ∨ ∃ b ∈ batches, r ∈ b) ∧
    (batches ≠ [] → List.Sorted pathRel (applyBatches repos batches)) := by
  induction batches generalizing repos with
  | nil => exact ⟨hnd, fun r h => h, fun r h => Or.inl h, fun h => absurd rfl h⟩
  | cons b bs ih =>
    have hstep : applyBatches repos (b :: bs) =
        applyBatches (insertDiscovered repos b) bs := rfl
    obtain ⟨ih1, ih2, ih3, ih4⟩ :=
      ih (insertDiscovered repos b) (nodup_insertDiscovered repos b hnd)
    rw [hstep]
    refine ⟨ih1, ?_, ?_, ?_⟩
    · intro r hr
      exact ih2 r (mem_insertDiscovered_of_mem b hr)
    · intro r hr
      rcases ih3 r hr with h' | ⟨b', hb', hrb'⟩
      · rcases mem_of_mem_insertDiscovered h' with h'' | h''
        · exact Or.inl h''
        · exact Or.inr ⟨b, List.mem_cons_self b bs, h''⟩
      · exact Or.inr ⟨b', List.mem_cons_of_mem _ hb', hrb'⟩
    · intro _
      rcases bs with _ | ⟨b', bs'⟩
      · exact sorted_insertDiscovered repos b
      · exact ih4 (by simp)

/-- Closed instance of `C2_insertDiscovered_invariants`: one starting
record and two batches, the first containing an internal duplicate and a
path already tracked. -/
theorem C2_witness :
    ((applyBatches [Repository.new "/b"]
        [[Repository.new "/a", Repository.new "/a", Repository.new "/b"],
         [Repository.new "/c"]]).map Repository.path).Nodup ∧
    (∀ r ∈ [Repository.new "/b"],
      r ∈ applyBatches [Repository.new "/b"]
        [[Repository.new "/a", Repository.new "/a", Repository.new "/b"],
         [Repository.new "/c"]]) ∧
    (∀ r ∈ applyBatches [Repository.new "/b"]
        [[Repository.new "/a", Repository.new "/a", Repository.new "/b"],
         [Repository.new "/c"]],
      r ∈ [Repository.new "/b"] ∨
        ∃ b ∈ [[Repository.new "/a", Repository.new "/a", Repository.new "/b"],
               [Repository.new "/c"]], r ∈ b) ∧
    ([[Repository.new "/a", Repository.new "/a", Repository.new "/b"],
      [Repository.new "/c"]] ≠
        ([] : List (List Repository)) →
      List.Sorted pathRel
        (applyBatches [Repository.new "/b"]
          [[Repository.new "/a", Repository.new "/a", Repository.new "/b"],
           [Repository.new "/c"]])) :=
  C2_insertDiscovered_invariants [Repository.new "/b"]
    [[Repository.new "/a", Repository.new "/a", Repository.new "/b"],
     [Repository.new "/c"]] (by decide)

/-- C7: `sort_repos` is a permutation of its input; sorting twice with one
column and order equals sorting once; the `unordered` order sorts by path
ascending whatever the requested column; ascending output is sorted by the
column key (text order for path, branch, revision, phase and status;
`false < true` for modified), descending by the reversed key; and the sort
is stable — any key-ordered sublist of the input survives as a sublist of
the ascending output. -/
theorem C7_sort_repos_stable_idempotent (repos : List Repository)
    (col : Nat) (ord : SortOrder) :
    sort_repos (sort_repos repos { column := col, order := ord })
        { column := col, order := ord } =
      sort_repos repos { column := col, order := ord } ∧
    (sort_repos repos { column := col, order := ord }).Perm repos ∧
    sort_repos repos { column := col, order := SortOrder.unordered } =
      sort_repos repos { column := 0, order := SortOrder.ascending } ∧
    List.Sorted (colRel col)
      (sort_repos repos { column := col, order := SortOrder.ascending }) ∧
    List.Sorted (fun a b => colRel col b a)
      (sort_repos repos { column := col, order := SortOrder.descending }) ∧
    List.Sorted pathRel
      (sort_repos repos { column := col, order := SortOrder.unordered }) ∧
    (∀ c : List Repository, c.Pairwise (colRel col) → c.Sublist repos →
      c.Sublist (sort_repos repos { column := col, order := SortOrder.ascending })) := by
  haveI hto : IsTotal Repository (colRel col) := ⟨colRel_total col⟩
  haveI htr : IsTrans Repository (colRel col) := ⟨colRel_trans col⟩
  haveI hto' : IsTotal Repository (fun a b => colRel col b a) :=
    ⟨fun a b => colRel_total col b a⟩
  haveI htr' : IsTrans Repository (fun a b => colRel col b a) :=
    ⟨fun a b c hab hbc => colRel_trans col c b a hbc hab⟩
  refine ⟨?_, ?_, ?_, ?_, ?_, ?_, ?_⟩
  · cases ord with
    | ascending =>
      exact List.Sorted.insertionSort_eq
        (List.sorted_insertionSort (colRel col) repos)
    | descending =>
      exact List.Sorted.insertionSort_eq
        (List.sorted_insertionSort (fun a b => colRel col b a) repos)
    | unordered =>
      exact List.Sorted.insertionSort_eq
        (List.sorted_insertionSort pathRel repos)
  · cases ord <;> exact List.perm_insertionSort _ _
  · rfl
  · exact List.sorted_insertionSort _ _
  · exact List.sorted_insertionSort _ _
  · exact List.sorted_insertionSort _ _
  · exact fun c hc hsub => List.sublist_insertionSort hc hsub

/-- Closed instance of `C7_sort_repos_stable_idempotent`: two records tied
on the status column keep their original relative order in the ascending
status sort (stability), and sorting a second time changes nothing. -/
theorem C7_witness :
    [{ Repository.new "/b" with last_status := "S" },
     { Repository.new "/a" with last_status := "S" }].Sublist
      (sort_repos
        [{ Repository.new "/b" with last_status := "S" },
         { Repository.new "/a" with last_status := "S" }]
        { column := 5, order := SortOrder.ascending }) ∧
    sort_repos
        (sort_repos
          [{ Repository.new "/b" with last_status := "S" },
           { Repository.new "/a" with last_status := "S" }]
          { column := 5, order := SortOrder.ascending })
        { column := 5, order := SortOrder.ascending } =
      sort_repos
        [{ Repository.new "/b" with last_status := "S" },
         { Repository.new "/a" with last_status := "S" }]
        { column := 5, order := SortOrder.ascending } :=
  ⟨(C7_sort_repos_stable_idempotent
      [{ Repository.new "/b" with last_status := "S" },
       { Repository.new "/a" with last_status := "S" }] 5
      SortOrder.ascending).2.2.2.2.2.2 _ (by decide) (by decide),
   (C7_sort_repos_stable_idempotent
      [{ Repository.new "/b" with last_status := "S" },
       { Repository.new "/a" with last_status := "S" }] 5
      SortOrder.ascending).1⟩

/-- C10: in `get_repo_status`, a successful revision-id query followed by a
failing status query still succeeds, returning the real revision with
`modified = false`; the `"?"` sentinel appears in `refresh` exactly when
the revision-id query itself fails, in which case `get_repo_status`
propagates that failure. -/
theorem C10_repo_status_partial_failure (w : World) (r : Repository)
    (rev e₁ e₂ : String) :
    (run_hg (w ["id", "-n"]) = Except.ok rev →
      run_hg (w ["status", "-q"]) = Except.error e₁ →
      get_repo_status w = Except.ok (rev, false) ∧
      (refresh w r).revision = rev ∧
      (refresh w r).modified = false) ∧
    (run_hg (w ["id", "-n"]) = Except.error e₂ →
      get_repo_status w = Except.error e₂ ∧
      (refresh w r).revision = "?") := by
  constructor
  · intro h1 h2
    have hs : get_repo_status w = Except.ok (rev, false) := by
      simp [get_repo_status, h1, h2, bind, Except.bind, pure, Except.pure,
        String.isEmpty]
    exact ⟨hs, by simp [refresh, hs], by simp [refresh, hs]⟩
  · intro h
    have hs : get_repo_status w = Except.error e₂ := by
      simp [get_repo_status, h, bind, Except.bind]
    exact ⟨hs, by simp [refresh, hs]⟩

/-- Closed instance of `C10_repo_status_partial_failure`: with only the id
query succeeding, `get_repo_status` returns the id with `modified = false`;
with everything failing, `refresh` shows the `"?"` sentinel. -/
theorem C10_witness :
    get_repo_status idOnlyWorld = Except.ok ("42", false) ∧
    (refresh failWorld (Repository.new "/r")).revision = "?" :=
  ⟨((C10_repo_status_partial_failure idOnlyWorld (Repository.new "/r") "42"
      "hg command failed: boom" "").1 (by decide) (by decide)).1,
   ((C10_repo_status_partial_failure failWorld (Repository.new "/r") ""
      "" "hg command failed: boom").2 (by decide)).2⟩

/-- C8: serialising an `AppConfig` and deserialising the result is the
identity, and a legacy document that is a bare path list deserialises to
that path list with `theme_idx = 0` and the default `show_full_path =
true`. -/
theorem C8_config_roundtrip_and_legacy :
    (∀ cfg : AppConfig, load_config (some (encodeAppConfig cfg)) = cfg) ∧
    (∀ paths : List String,
      load_config (some (Json.arr (paths.map Json.str))) =
        { repositories := paths, theme_idx := 0, show_full_path := true }) := by
  constructor
  · intro cfg
    simp [load_config, encodeAppConfig, decodeAppConfig, getField, decodePaths,
      decodeNat, decodeBool, decodeStrAll_map_str, bind, Option.bind]
  · intro paths
    simp [load_config, decodeAppConfig, decodePaths, decodeStrAll_map_str]

/-- C9: a bulk-operation batch emits the global `"Ready"` signal exactly
once, strictly after every worker's terminal per-record result: in the
trace of any completion order of the selection, `"Ready"` occurs once, is
the last message, and every selected record's terminal result occurs
before it. -/
theorem C9_batch_ready_exactly_once (outcome : Repository → Repository)
    (sel completed : List Repository) (hperm : completed.Perm sel) :
    (batchTrace outcome completed).count (Msg.setGlobalStatus "Ready") = 1 ∧
    (batchTrace outcome completed).getLast? = some (Msg.setGlobalStatus "Ready") ∧
    ∀ r ∈ sel,
      Msg.repoUpdated (outcome r) ∈ (batchTrace outcome completed).dropLast := by
  refine ⟨?_, ?_, ?_⟩
  · rw [batchTrace, List.count_append]
    have hz : (completed.map (fun r => Msg.repoUpdated (outcome r))).count
        (Msg.setGlobalStatus "Ready") = 0 := by
      rw [List.count_eq_zero]
      intro hmem
      rcases List.mem_map.mp hmem with ⟨r, _, heq⟩
      exact Msg.noConfusion heq
    rw [hz]
    rfl
  · rw [batchTrace, List.getLast?_concat]
  · intro r hr
    rw [batchTrace, List.dropLast_concat]
    exact List.mem_map_of_mem _ (hperm.mem_iff.mpr hr)

/-- Closed instance of `C9_batch_ready_exactly_once`: a two-record
selection completing in reversed order. -/
theorem C9_witness :
    (batchTrace id [Repository.new "/b", Repository.new "/a"]).count
        (Msg.setGlobalStatus "Ready") = 1 ∧
    (batchTrace id [Repository.new "/b", Repository.new "/a"]).getLast? =
      some (Msg.setGlobalStatus "Ready") ∧
    ∀ r ∈ [Repository.new "/a", Repository.new "/b"],
      Msg.repoUpdated (id r) ∈
        (batchTrace id [Repository.new "/b", Repository.new "/a"]).dropLast :=
  C9_batch_ready_exactly_once id [Repository.new "/a", Repository.new "/b"]
    [Repository.new "/b", Repository.new "/a"] (by decide)

end ManaHg
